import Mathlib

/-!
Shallow embedding of the YouTube ELT pipeline's reconcile-and-transform
engine (dags/youtube_load_db.py and test_duration_transform.py), together
with theorems checking the repository specification's claims about it.

The staging table, core table and statistics table are modelled as lists
of rows; the PostgreSQL UPSERT / DELETE statements become pure functions
on those lists, and the two Airflow task callables become state-passing
functions.  Fallible steps return Except values.
-/

/-! ## Duration codec (test_duration_transform.py) -/

/-- Numeric value of a digit run, as Python int() applied to a matched group. -/
def digitsToNat (ds : List Char) : Nat :=
  ds.foldl (fun n c => 10 * n + (c.toNat - '0'.toNat)) 0

/-- Scanner modelling re.search of one-or-more digits followed by a marker
character: returns the leftmost maximal digit run that is immediately
followed by the marker, as a number.  The accumulator holds the value of
the digit run currently being read, if any. -/
def findGroupGo (marker : Char) : Option Nat → List Char → Option Nat
  | _, [] => none
  | cur, ch :: rest =>
    if ch.isDigit then
      findGroupGo marker (some ((cur.getD 0) * 10 + (ch.toNat - '0'.toNat))) rest
    else
      match cur with
      | some n => if ch = marker then some n else findGroupGo marker none rest
      | none => findGroupGo marker none rest

/-- Leftmost digit run immediately followed by the marker character. -/
def findGroup (marker : Char) (s : List Char) : Option Nat :=
  findGroupGo marker none s

/-- iso_to_seconds from test_duration_transform.py: convert an ISO 8601
duration such as PT22M26S to seconds; inputs that are empty or do not
start with PT yield 0. -/
def iso_to_seconds (duration : String) : Nat :=
  if duration = "" ∨ ¬ duration.startsWith "PT" then 0
  else
    let rest := duration.toList.drop 2
    let hours := (findGroup 'H' rest).getD 0
    let minutes := (findGroup 'M' rest).getD 0
    let seconds := (findGroup 'S' rest).getD 0
    hours * 3600 + minutes * 60 + seconds

/-- get_duration_label from test_duration_transform.py, also the CASE
expression of transform_to_core: short below 60 seconds, long otherwise. -/
def get_duration_label (seconds : Int) : String :=
  if seconds < 60 then "short" else "long"

/-! ## Data model (youtube_load_db.py) -/

/-- One raw video record of the JSON snapshot.  video_id is optional to
model a record lacking its key field; the three count fields are optional
to model null statistics in the JSON. -/
structure RawVideo where
  video_id : Option String
  title : String
  published_at : String
  duration : String
  duration_readable : String
  view_count : Option Int
  like_count : Option Int
  comment_count : Option Int
deriving DecidableEq

/-- The JSON snapshot: channel metadata plus the ordered video sequence. -/
structure Snapshot where
  videos : List RawVideo
  channel_id : String
  channel_handle : String
  extraction_date : String
deriving DecidableEq

/-- One row of staging.youtube_videos_raw. -/
structure StagingRow where
  video_id : String
  title : String
  published_at : String
  duration : String
  duration_readable : String
  view_count : Int
  like_count : Int
  comment_count : Int
  channel_id : String
  channel_handle : String
  extraction_date : String
deriving DecidableEq

/-- The staging table, a list of rows (primary key video_id). -/
abbrev Staging := List StagingRow

/-- One row of core.videos. -/
structure CoreRow where
  video_id : String
  title : String
  published_at : String
  duration : String
  duration_readable : String
  duration_seconds : Nat
  duration_label : String
  channel_id : String
  channel_handle : String
  created_at : String
  updated_at : String
deriving DecidableEq

/-- One row of core.video_statistics, the append-only history. -/
structure StatRow where
  video_id : String
  view_count : Int
  like_count : Int
  comment_count : Int
  recorded_at : String
deriving DecidableEq

/-- The core schema: entity table plus statistics history. -/
structure CoreState where
  videos : List CoreRow
  statistics : List StatRow
deriving DecidableEq

/-- Failure of sync_to_staging: a record without its video_id key
(Python KeyError raised while building the deduplication dict). -/
inductive SyncError where
  | keyError
deriving DecidableEq

/-- Result of one sync_to_staging run: final staging table plus the
counters the task logs and returns.  degradedReport records that the
warning about an unreadable existing-id set was emitted. -/
structure SyncOutcome where
  staging : Staging
  inserted : Nat
  updated : Nat
  deleted : Nat
  degradedReport : Bool
  returned : Nat
deriving DecidableEq

/-! ## Staging reconciler (sync_to_staging) -/

/-- Keys of the staging table. -/
def stagingKeys (st : Staging) : List String :=
  st.map (fun r => r.video_id)

/-- Extract each video's key, failing like the Python dict comprehension
does when a record lacks video_id. -/
def keyedVideos : List RawVideo → Except SyncError (List (String × RawVideo))
  | [] => Except.ok []
  | v :: vs =>
    match v.video_id with
    | none => Except.error SyncError.keyError
    | some k =>
      match keyedVideos vs with
      | Except.error e => Except.error e
      | Except.ok ps => Except.ok ((k, v) :: ps)

/-- In-place value overwrite for one entry of the deduplication dict. -/
def dictUpdate (k : String) (v : RawVideo) (p : String × RawVideo) :
    String × RawVideo :=
  if p.1 = k then (k, v) else p

/-- Python dict insertion: overwrite the value in place if the key is
present, otherwise append at the end (insertion order). -/
def dictInsert (d : List (String × RawVideo)) (k : String) (v : RawVideo) :
    List (String × RawVideo) :=
  if d.any (fun p => p.1 == k) then d.map (dictUpdate k v)
  else d ++ [(k, v)]

/-- The deduplication dict built by iterating over the snapshot in order:
for duplicate keys the last value wins. -/
def dedupVideos (ps : List (String × RawVideo)) : List (String × RawVideo) :=
  ps.foldl (fun d p => dictInsert d p.1 p.2) []

/-- Last occurrence of a key in the keyed snapshot sequence. -/
def lastOcc (ps : List (String × RawVideo)) (k : String) : Option RawVideo :=
  ((ps.filter (fun p => p.1 == k)).getLast?).map (fun p => p.2)

/-- Value stored for a key in the deduplication dict (Python d[k]). -/
def dictLookup (d : List (String × RawVideo)) (k : String) : Option RawVideo :=
  (d.find? (fun p => p.1 == k)).map (fun p => p.2)

/-- Staging row built from an incoming record, null counts coerced to 0
(the VALUES of the staging INSERT). -/
def rowOfVideo (cid chandle edate : String) (k : String) (v : RawVideo) : StagingRow :=
  { video_id := k
    title := v.title
    published_at := v.published_at
    duration := v.duration
    duration_readable := v.duration_readable
    view_count := v.view_count.getD 0
    like_count := v.like_count.getD 0
    comment_count := v.comment_count.getD 0
    channel_id := cid
    channel_handle := chandle
    extraction_date := edate }

/-- The SET clause of the staging UPSERT conflict branch: overwrite
title, the three counts and the extraction timestamp on the conflicting
row, leave every other row and field alone. -/
def stagingConflictUpdate (r row : StagingRow) : StagingRow :=
  if row.video_id = r.video_id then
    { row with
      title := r.title
      view_count := r.view_count
      like_count := r.like_count
      comment_count := r.comment_count
      extraction_date := r.extraction_date }
  else row

/-- The staging UPSERT: INSERT ... ON CONFLICT (video_id) DO UPDATE SET
title, view_count, like_count, comment_count, extraction_date. -/
def upsertStaging (st : Staging) (r : StagingRow) : Staging :=
  if st.any (fun row => row.video_id == r.video_id) then
    st.map (stagingConflictUpdate r)
  else st ++ [r]

/-- The existing-id read: a SQL SELECT of all staging keys collected into
a Python set (hence the dedup); a failed read degrades to the empty set. -/
def existingIdsOf (st : Staging) (readFails : Bool) : List String :=
  if readFails then [] else (stagingKeys st).dedup

/-- The upsert loop of sync_to_staging: one staging UPSERT per
deduplicated record, in order. -/
def upsertAll (snap : Snapshot) (st : Staging) (uniq : List (String × RawVideo)) :
    Staging :=
  uniq.foldl
    (fun s p =>
      upsertStaging s
        (rowOfVideo snap.channel_id snap.channel_handle snap.extraction_date p.1 p.2))
    st

/-- The tombstone set: existing ids minus incoming ids. -/
def tombstones (existing incoming : List String) : List String :=
  existing.filter (fun k => decide (k ∉ incoming))

/-- The DELETE step of sync_to_staging, guarded exactly like the Python
code (the statement only runs when the tombstone set is nonempty). -/
def deleteStaging (st : Staging) (to_delete : List String) : Staging :=
  if to_delete.isEmpty then st
  else st.filter (fun row => decide (row.video_id ∉ to_delete))

/-- Everything sync_to_staging does after the snapshot's keys have been
extracted: deduplicate, read existing ids, upsert, count, delete. -/
def syncBody (snap : Snapshot) (st : Staging) (readFails : Bool)
    (keyed : List (String × RawVideo)) : SyncOutcome :=
  { staging :=
      deleteStaging (upsertAll snap st (dedupVideos keyed))
        (tombstones (existingIdsOf st readFails)
          ((dedupVideos keyed).map (fun p => p.1)))
    inserted :=
      ((dedupVideos keyed).filter
        (fun p => decide (p.1 ∉ existingIdsOf st readFails))).length
    updated :=
      ((dedupVideos keyed).filter
        (fun p => decide (p.1 ∈ existingIdsOf st readFails))).length
    deleted :=
      (tombstones (existingIdsOf st readFails)
        ((dedupVideos keyed).map (fun p => p.1))).length
    degradedReport := readFails
    returned := (dedupVideos keyed).length }

/-- sync_to_staging: deduplicate the snapshot, read the existing key set
(degrading to the empty set when the read fails), upsert every
deduplicated record, then delete the staging rows whose key is absent
from the snapshot. -/
def sync_to_staging (snap : Snapshot) (st : Staging) (readFails : Bool) :
    Except SyncError SyncOutcome :=
  match keyedVideos snap.videos with
  | Except.error e => Except.error e
  | Except.ok keyed => Except.ok (syncBody snap st readFails keyed)

/-! ## Core transformer (transform_to_core) -/

/-- Core row derived from a staging row (the SELECT of the core upsert):
duration parsed to seconds, label short below 60 seconds, both
timestamps set to the statement's NOW(). -/
def coreRowOfStaging (now : String) (r : StagingRow) : CoreRow :=
  { video_id := r.video_id
    title := r.title
    published_at := r.published_at
    duration := r.duration
    duration_readable := r.duration_readable
    duration_seconds := iso_to_seconds r.duration
    duration_label := get_duration_label (iso_to_seconds r.duration)
    channel_id := r.channel_id
    channel_handle := r.channel_handle
    created_at := now
    updated_at := now }

/-- The SET clause of the core UPSERT conflict branch: refresh title,
duration_seconds, duration_label and updated_at on the conflicting row,
leave every other row and field (created_at included) alone. -/
def coreConflictUpdate (nr row : CoreRow) : CoreRow :=
  if row.video_id = nr.video_id then
    { row with
      title := nr.title
      duration_seconds := nr.duration_seconds
      duration_label := nr.duration_label
      updated_at := nr.updated_at }
  else row

/-- The core UPSERT: INSERT ... ON CONFLICT (video_id) DO UPDATE SET
title, duration_seconds, duration_label, updated_at. -/
def upsertCore (core : List CoreRow) (nr : CoreRow) : List CoreRow :=
  if core.any (fun row => row.video_id == nr.video_id) then
    core.map (coreConflictUpdate nr)
  else core ++ [nr]

/-- Statistics row appended for one staging row, recorded_at set to the
run's reference timestamp. -/
def statRowOf (recorded_at : String) (r : StagingRow) : StatRow :=
  { video_id := r.video_id
    view_count := r.view_count
    like_count := r.like_count
    comment_count := r.comment_count
    recorded_at := recorded_at }

/-- transform_to_core: upsert every staging row into core.videos, delete
the core rows whose key is absent from current staging (guarded by the
count the task computes first), then append one statistics row per
staging row.  Returns the new core state and the final core row count. -/
def transform_to_core (state : CoreState) (st : Staging) (now ts : String) :
    CoreState × Nat :=
  let core1 := st.foldl (fun c r => upsertCore c (coreRowOfStaging now r)) state.videos
  let to_delete_core := (core1.filter (fun r => decide (r.video_id ∉ stagingKeys st))).length
  let core2 :=
    if to_delete_core > 0 then core1.filter (fun r => decide (r.video_id ∈ stagingKeys st))
    else core1
  let stats2 := state.statistics ++ st.map (statRowOf ts)
  ({ videos := core2, statistics := stats2 }, core2.length)

/-- Iterated transform runs over an unchanged staging table. -/
def runTransformN (n : Nat) (state : CoreState) (st : Staging) (now ts : String) :
    CoreState :=
  match n with
  | 0 => state
  | Nat.succ m => runTransformN m (transform_to_core state st now ts).1 st now ts

/-- First staging row with the given key (SQL row lookup by primary key). -/
def stagingLookup (st : Staging) (k : String) : Option StagingRow :=
  st.find? (fun r => r.video_id == k)

/-- First core row with the given key (SQL row lookup by primary key). -/
def coreLookup (core : List CoreRow) (k : String) : Option CoreRow :=
  core.find? (fun r => r.video_id == k)

/-! ## Concrete example values, used to evaluate the theorems -/

/-- A well-formed raw video record with key a. -/
def exVideo : RawVideo :=
  ⟨some "a", "T", "p", "PT1M", "1:00", none, some 5, none⟩

/-- A one-video snapshot. -/
def exSnap : Snapshot := ⟨[exVideo], "c", "h", "t"⟩

/-- The staging row exVideo produces under exSnap. -/
def exRowA : StagingRow := ⟨"a", "T", "p", "PT1M", "1:00", 0, 5, 0, "c", "h", "t"⟩

/-- A staging row with key b, not present in exSnap. -/
def exRowB : StagingRow := ⟨"b", "TB", "pb", "PT9S", "0:09", 1, 1, 1, "c", "h", "t0"⟩

/-- First occurrence of duplicate key a. -/
def exVideoA1 : RawVideo := ⟨some "a", "T1", "p", "PT1M", "1:00", none, none, none⟩

/-- A record with key b between the duplicates. -/
def exVideoB : RawVideo := ⟨some "b", "TB", "p", "PT10S", "0:10", some 1, none, none⟩

/-- Last occurrence of duplicate key a. -/
def exVideoA2 : RawVideo := ⟨some "a", "T2", "p", "PT2M", "2:00", some 9, none, none⟩

/-- A snapshot whose video sequence contains key a twice. -/
def exSnapDup : Snapshot := ⟨[exVideoA1, exVideoB, exVideoA2], "c", "h", "t"⟩

/-! ## Helper lemmas -/

theorem stagingConflictUpdate_key (r row : StagingRow) :
    (stagingConflictUpdate r row).video_id = row.video_id := by
  unfold stagingConflictUpdate
  split <;> rfl

theorem coreConflictUpdate_key (nr row : CoreRow) :
    (coreConflictUpdate nr row).video_id = row.video_id := by
  unfold coreConflictUpdate
  split <;> rfl

theorem dictUpdate_key (k : String) (v : RawVideo) (p : String × RawVideo) :
    (dictUpdate k v p).1 = p.1 := by
  unfold dictUpdate
  split
  · next h => exact h.symm
  · rfl

theorem find?_key_map {α : Type} (key : α → String) (f : α → α)
    (hf : ∀ r, key (f r) = key r) (q : String) (l : List α) :
    (l.map f).find? (fun r => key r == q) = (l.find? (fun r => key r == q)).map f := by
  induction l with
  | nil => rfl
  | cons a tl ih =>
    rw [List.map_cons]
    simp only [List.find?]
    rw [hf a]
    cases hb : key a == q with
    | true => rfl
    | false => exact ih

/-! ## Duration codec claims -/

/-- C9: classify returns short exactly when the value is below 60 seconds
and long exactly when it is 60 or more; in particular 59 is short, 60 is
long (boundary inclusive on long) and 0 is short. -/
theorem classify_short_long :
    (∀ s : Int, (get_duration_label s = "short" ↔ s < 60) ∧
      (get_duration_label s = "long" ↔ 60 ≤ s)) ∧
    get_duration_label 59 = "short" ∧ get_duration_label 60 = "long" ∧
    get_duration_label 0 = "short" := by
  refine ⟨fun s => ?_, by decide, by decide, by decide⟩
  unfold get_duration_label
  by_cases h : s < 60
  · rw [if_pos h]
    refine ⟨⟨fun _ => h, fun _ => rfl⟩, ?_, ?_⟩
    · intro hc
      exact absurd hc (by decide)
    · intro h60
      omega
  · rw [if_neg h]
    refine ⟨⟨?_, ?_⟩, fun _ => by omega, fun _ => rfl⟩
    · intro hc
      exact absurd hc (by decide)
    · intro hlt
      exact absurd hlt h

/-- C10: parse is a total function into the naturals and fails soft: an
empty input, or one that does not begin with the PT marker, yields 0. -/
theorem parse_soft_fail (s : String) (h : s = "" ∨ ¬ s.startsWith "PT") :
    iso_to_seconds s = 0 := by
  unfold iso_to_seconds
  rw [if_pos h]

/-- Witness: parse_soft_fail evaluated at a concrete unparseable input. -/
theorem parse_soft_fail_witness : iso_to_seconds "" = 0 :=
  parse_soft_fail "" (Or.inl rfl)

/-! ## Frame claims on the two upserts -/

/-- C8: when the incoming row's key already exists in staging, the staging
upsert overwrites exactly title, view_count, like_count, comment_count and
the extraction timestamp on that row; published_at, duration,
duration_readable, channel_id and channel_handle keep their previous
values (visible in the record update, which copies them from the old row). -/
theorem staging_upsert_conflict_frame (st : Staging) (nr r : StagingRow)
    (h : stagingLookup st nr.video_id = some r) :
    stagingLookup (upsertStaging st nr) nr.video_id =
      some { r with
        title := nr.title
        view_count := nr.view_count
        like_count := nr.like_count
        comment_count := nr.comment_count
        extraction_date := nr.extraction_date } := by
  have h' : List.find? (fun row => row.video_id == nr.video_id) st = some r := h
  have hpred := List.find?_some h'
  have hr : r.video_id = nr.video_id := eq_of_beq hpred
  have hmem : r ∈ st := List.mem_of_find?_eq_some h'
  have hany : st.any (fun row => row.video_id == nr.video_id) = true :=
    List.any_eq_true.mpr ⟨r, hmem, hpred⟩
  unfold upsertStaging
  rw [if_pos hany]
  unfold stagingLookup at h ⊢
  rw [find?_key_map (fun row => row.video_id) (stagingConflictUpdate nr)
    (stagingConflictUpdate_key nr) nr.video_id st, h]
  show some (stagingConflictUpdate nr r) = _
  unfold stagingConflictUpdate
  rw [if_pos hr]

/-- Witness: the staging conflict frame at a concrete pair of rows. -/
theorem staging_upsert_conflict_frame_witness :
    stagingLookup
      (upsertStaging
        [⟨"a", "Old", "p0", "PT2M", "2:00", 1, 1, 1, "c0", "h0", "t0"⟩]
        ⟨"a", "New", "p1", "PT9M", "9:00", 7, 8, 9, "c1", "h1", "t1"⟩) "a"
    = some ⟨"a", "New", "p0", "PT2M", "2:00", 7, 8, 9, "c0", "h0", "t1"⟩ :=
  staging_upsert_conflict_frame
    [⟨"a", "Old", "p0", "PT2M", "2:00", 1, 1, 1, "c0", "h0", "t0"⟩]
    ⟨"a", "New", "p1", "PT9M", "9:00", 7, 8, 9, "c1", "h1", "t1"⟩
    ⟨"a", "Old", "p0", "PT2M", "2:00", 1, 1, 1, "c0", "h0", "t0"⟩
    rfl

theorem coreLookup_upsert_created_at (core : List CoreRow) (nr : CoreRow)
    (k : String) (r : CoreRow) (h : coreLookup core k = some r) :
    ∃ r2, coreLookup (upsertCore core nr) k = some r2 ∧
      r2.created_at = r.created_at := by
  unfold upsertCore
  by_cases hany : core.any (fun row => row.video_id == nr.video_id) = true
  · rw [if_pos hany]
    unfold coreLookup at h ⊢
    rw [find?_key_map (fun row => row.video_id) (coreConflictUpdate nr)
      (coreConflictUpdate_key nr) k core, h]
    refine ⟨coreConflictUpdate nr r, rfl, ?_⟩
    unfold coreConflictUpdate
    split <;> rfl
  · rw [if_neg hany]
    unfold coreLookup at h ⊢
    rw [List.find?_append, h]
    exact ⟨r, rfl, rfl⟩

theorem coreLookup_foldl_created_at (news : List CoreRow) :
    ∀ (core : List CoreRow) (k : String) (r : CoreRow),
      coreLookup core k = some r →
      ∃ r2, coreLookup (news.foldl upsertCore core) k = some r2 ∧
        r2.created_at = r.created_at := by
  induction news with
  | nil => exact fun core k r h => ⟨r, h, rfl⟩
  | cons nr tl ih =>
    intro core k r h
    obtain ⟨r1, h1, hc1⟩ := coreLookup_upsert_created_at core nr k r h
    obtain ⟨r2, h2, hc2⟩ := ih (upsertCore core nr) k r1 h1
    exact ⟨r2, h2, hc2.trans hc1⟩

/-- C5: on conflict the core upsert refreshes exactly title,
duration_seconds, duration_label and updated_at (created_at and every
other field are copied from the old row); a new key is inserted as given,
setting created_at at insertion; and created_at is never changed by any
subsequent sequence of upserts of the same video_id. -/
theorem core_upsert_created_at (core : List CoreRow) (nr : CoreRow) :
    (∀ r, coreLookup core nr.video_id = some r →
      coreLookup (upsertCore core nr) nr.video_id =
        some { r with
          title := nr.title
          duration_seconds := nr.duration_seconds
          duration_label := nr.duration_label
          updated_at := nr.updated_at }) ∧
    (coreLookup core nr.video_id = none →
      coreLookup (upsertCore core nr) nr.video_id = some nr) ∧
    (∀ (news : List CoreRow) (k : String) (r : CoreRow),
      coreLookup core k = some r →
      ∃ r2, coreLookup (news.foldl upsertCore core) k = some r2 ∧
        r2.created_at = r.created_at) := by
  refine ⟨?_, ?_, fun news k r h => coreLookup_foldl_created_at news core k r h⟩
  · intro r h
    have h' : List.find? (fun row => row.video_id == nr.video_id) core = some r := h
    have hpred := List.find?_some h'
    have hr : r.video_id = nr.video_id := eq_of_beq hpred
    have hany : core.any (fun row => row.video_id == nr.video_id) = true :=
      List.any_eq_true.mpr ⟨r, List.mem_of_find?_eq_some h', hpred⟩
    unfold upsertCore
    rw [if_pos hany]
    unfold coreLookup at h ⊢
    rw [find?_key_map (fun row => row.video_id) (coreConflictUpdate nr)
      (coreConflictUpdate_key nr) nr.video_id core, h]
    show some (coreConflictUpdate nr r) = _
    unfold coreConflictUpdate
    rw [if_pos hr]
  · intro h
    have hany : core.any (fun row => row.video_id == nr.video_id) = false := by
      rw [List.any_eq_false]
      intro x hx hpx
      unfold coreLookup at h
      rw [List.find?_eq_none] at h
      exact h x hx hpx
    unfold upsertCore
    rw [if_neg (by simp [hany])]
    unfold coreLookup at h ⊢
    rw [List.find?_append, h]
    simp [List.find?]

/-- Witness: the core upsert frame and created_at immutability at
concrete rows. -/
theorem core_upsert_created_at_witness :
    coreLookup
      (upsertCore
        [⟨"a", "Old", "p", "PT2M", "2:00", 120, "long", "c", "h", "c0", "u0"⟩]
        ⟨"a", "New", "px", "PT1S", "0:01", 1, "short", "cx", "hx", "c9", "u9"⟩) "a"
      = some ⟨"a", "New", "p", "PT2M", "2:00", 1, "short", "c", "h", "c0", "u9"⟩ ∧
    (∃ r2, coreLookup
        ([⟨"a", "N2", "py", "PT3S", "0:03", 3, "short", "cy", "hy", "c8", "u8"⟩].foldl
          upsertCore
          [⟨"a", "Old", "p", "PT2M", "2:00", 120, "long", "c", "h", "c0", "u0"⟩]) "a"
      = some r2 ∧ r2.created_at = "c0") :=
  ⟨(core_upsert_created_at
      [⟨"a", "Old", "p", "PT2M", "2:00", 120, "long", "c", "h", "c0", "u0"⟩]
      ⟨"a", "New", "px", "PT1S", "0:01", 1, "short", "cx", "hx", "c9", "u9"⟩).1
      ⟨"a", "Old", "p", "PT2M", "2:00", 120, "long", "c", "h", "c0", "u0"⟩ rfl,
   (core_upsert_created_at
      [⟨"a", "Old", "p", "PT2M", "2:00", 120, "long", "c", "h", "c0", "u0"⟩]
      ⟨"a", "New", "px", "PT1S", "0:01", 1, "short", "cx", "hx", "c9", "u9"⟩).2.2
      [⟨"a", "N2", "py", "PT3S", "0:03", 3, "short", "cy", "hy", "c8", "u8"⟩] "a"
      ⟨"a", "Old", "p", "PT2M", "2:00", 120, "long", "c", "h", "c0", "u0"⟩ rfl⟩

/-! ## Key-set lemmas for the reconciler -/

theorem sync_ok (snap : Snapshot) (st : Staging) (rf : Bool)
    (ps : List (String × RawVideo)) (hk : keyedVideos snap.videos = Except.ok ps) :
    sync_to_staging snap st rf = Except.ok (syncBody snap st rf ps) := by
  unfold sync_to_staging
  rw [hk]

theorem mem_stagingKeys_upsert (st : Staging) (r : StagingRow) (k : String) :
    k ∈ stagingKeys (upsertStaging st r) ↔ k ∈ stagingKeys st ∨ k = r.video_id := by
  unfold upsertStaging
  by_cases hany : st.any (fun row => row.video_id == r.video_id) = true
  · rw [if_pos hany]
    have hkeys : stagingKeys (st.map (stagingConflictUpdate r)) = stagingKeys st := by
      unfold stagingKeys
      rw [List.map_map]
      have hfun : ((fun row : StagingRow => row.video_id) ∘ stagingConflictUpdate r) =
          fun row => row.video_id := by
        funext row
        exact stagingConflictUpdate_key r row
      rw [hfun]
    rw [hkeys]
    constructor
    · exact Or.inl
    · intro hor
      rcases hor with h1 | h1
      · exact h1
      · obtain ⟨row, hrow, hbeq⟩ := List.any_eq_true.mp hany
        subst h1
        exact List.mem_map.mpr ⟨row, hrow, eq_of_beq hbeq⟩
  · rw [if_neg hany]
    unfold stagingKeys
    rw [List.map_append]
    simp [List.mem_append]

theorem mem_stagingKeys_upsertAll (snap : Snapshot) (uniq : List (String × RawVideo)) :
    ∀ (st : Staging) (k : String),
      k ∈ stagingKeys (upsertAll snap st uniq) ↔
        k ∈ stagingKeys st ∨ k ∈ uniq.map (fun p => p.1) := by
  unfold upsertAll
  induction uniq with
  | nil =>
    intro st k
    simp
  | cons p tl ih =>
    intro st k
    rw [List.foldl_cons]
    rw [ih (upsertStaging st
      (rowOfVideo snap.channel_id snap.channel_handle snap.extraction_date p.1 p.2)) k]
    rw [mem_stagingKeys_upsert]
    have hrow : (rowOfVideo snap.channel_id snap.channel_handle snap.extraction_date
        p.1 p.2).video_id = p.1 := rfl
    rw [hrow]
    simp only [List.map_cons, List.mem_cons]
    tauto

theorem mem_keys_dictInsert (d : List (String × RawVideo)) (k0 : String)
    (v : RawVideo) (k : String) :
    k ∈ (dictInsert d k0 v).map (fun p => p.1) ↔
      k ∈ d.map (fun p => p.1) ∨ k = k0 := by
  unfold dictInsert
  by_cases hany : d.any (fun p => p.1 == k0) = true
  · rw [if_pos hany]
    have hkeys : (d.map (dictUpdate k0 v)).map (fun p => p.1) = d.map (fun p => p.1) := by
      rw [List.map_map]
      have hfun : ((fun p : String × RawVideo => p.1) ∘ dictUpdate k0 v) =
          fun p : String × RawVideo => p.1 := by
        funext p
        exact dictUpdate_key k0 v p
      rw [hfun]
    rw [hkeys]
    constructor
    · exact Or.inl
    · intro hor
      rcases hor with h1 | h1
      · exact h1
      · obtain ⟨p0, hp0, hbeq⟩ := List.any_eq_true.mp hany
        subst h1
        exact List.mem_map.mpr ⟨p0, hp0, eq_of_beq hbeq⟩
  · rw [if_neg hany]
    rw [List.map_append]
    simp [List.mem_append]

theorem mem_keys_dedupAux (ps : List (String × RawVideo)) :
    ∀ (d : List (String × RawVideo)) (k : String),
      k ∈ (ps.foldl (fun d p => dictInsert d p.1 p.2) d).map (fun p => p.1) ↔
        k ∈ d.map (fun p => p.1) ∨ k ∈ ps.map (fun p => p.1) := by
  induction ps with
  | nil =>
    intro d k
    simp
  | cons p tl ih =>
    intro d k
    rw [List.foldl_cons, ih (dictInsert d p.1 p.2) k, mem_keys_dictInsert]
    simp only [List.map_cons, List.mem_cons]
    tauto

theorem mem_keys_dedup (ps : List (String × RawVideo)) (k : String) :
    k ∈ (dedupVideos ps).map (fun p => p.1) ↔ k ∈ ps.map (fun p => p.1) := by
  unfold dedupVideos
  rw [mem_keys_dedupAux]
  simp

theorem mem_tombstones (existing incoming : List String) (k : String) :
    k ∈ tombstones existing incoming ↔ k ∈ existing ∧ k ∉ incoming := by
  unfold tombstones
  simp [List.mem_filter]

theorem deleteStaging_eq_filter (st : Staging) (td : List String) :
    deleteStaging st td = st.filter (fun row => decide (row.video_id ∉ td)) := by
  unfold deleteStaging
  cases td with
  | nil =>
    rw [if_pos List.isEmpty_nil]
    exact (List.filter_eq_self.mpr (fun a _ => by simp)).symm
  | cons a tl => rfl

theorem mem_stagingKeys_filter (st : Staging) (td : List String) (k : String) :
    k ∈ stagingKeys (st.filter (fun row => decide (row.video_id ∉ td))) ↔
      k ∈ stagingKeys st ∧ k ∉ td := by
  unfold stagingKeys
  simp only [List.mem_map, List.mem_filter, decide_eq_true_eq]
  constructor
  · rintro ⟨row, ⟨h1, h2⟩, rfl⟩
    exact ⟨⟨row, h1, rfl⟩, h2⟩
  · rintro ⟨⟨row, h1, rfl⟩, h2⟩
    exact ⟨row, ⟨h1, h2⟩, rfl⟩

/-- C1: after a reconcile run whose existing-id read succeeds, the staging
key set is exactly the deduplicated key set of the snapshot: every
deduplicated incoming id is present and every previously existing id
absent from the snapshot has been deleted. -/
theorem reconcile_staging_keys (snap : Snapshot) (st : Staging)
    (ps : List (String × RawVideo)) (hk : keyedVideos snap.videos = Except.ok ps)
    (out : SyncOutcome) (h : sync_to_staging snap st false = Except.ok out) :
    ∀ k, k ∈ stagingKeys out.staging ↔ k ∈ (dedupVideos ps).map (fun p => p.1) := by
  intro k
  rw [sync_ok snap st false ps hk] at h
  injection h with h
  subst h
  show k ∈ stagingKeys
    (deleteStaging (upsertAll snap st (dedupVideos ps))
      (tombstones (existingIdsOf st false) ((dedupVideos ps).map (fun p => p.1)))) ↔ _
  rw [deleteStaging_eq_filter, mem_stagingKeys_filter, mem_stagingKeys_upsertAll,
    mem_tombstones]
  have he : existingIdsOf st false = (stagingKeys st).dedup := rfl
  rw [he, List.mem_dedup]
  constructor
  · rintro ⟨h1, h2⟩
    rcases h1 with h1 | h1
    · by_contra hc
      exact h2 ⟨h1, hc⟩
    · exact h1
  · intro h1
    exact ⟨Or.inr h1, fun hc => hc.2 h1⟩

/-- Witness: reconcile at a concrete one-video snapshot over empty staging. -/
theorem reconcile_staging_keys_witness :
    "a" ∈ stagingKeys (SyncOutcome.mk [exRowA] 1 0 0 false 1).staging ↔
      "a" ∈ (dedupVideos [("a", exVideo)]).map (fun p => p.1) :=
  reconcile_staging_keys exSnap [] [("a", exVideo)] rfl
    (SyncOutcome.mk [exRowA] 1 0 0 false 1) rfl "a"

/-! ## Degraded-read and failure-mode claims -/

/-- C7: when the existing-id read fails, reconcile does not abort: it
degrades to an empty existing set, proceeds as a pure insert of the
deduplicated snapshot (all records counted inserted, none updated), the
tombstone set is empty so nothing is deleted, and the degradation is
reported. -/
theorem sync_degraded (snap : Snapshot) (st : Staging)
    (ps : List (String × RawVideo)) (hk : keyedVideos snap.videos = Except.ok ps) :
    sync_to_staging snap st true = Except.ok
      { staging := upsertAll snap st (dedupVideos ps)
        inserted := (dedupVideos ps).length
        updated := 0
        deleted := 0
        degradedReport := true
        returned := (dedupVideos ps).length } := by
  rw [sync_ok snap st true ps hk]
  refine congrArg Except.ok ?_
  unfold syncBody
  have hins : (dedupVideos ps).filter
      (fun p => decide (p.1 ∉ existingIdsOf st true)) = dedupVideos ps :=
    List.filter_eq_self.mpr (fun a _ => by simp [existingIdsOf])
  have hupd : (dedupVideos ps).filter
      (fun p => decide (p.1 ∈ existingIdsOf st true)) = [] :=
    List.filter_eq_nil_iff.mpr (fun a _ => by simp [existingIdsOf])
  rw [hins, hupd]
  rfl

/-- Witness: a degraded run over a nonempty staging table whose only row
is absent from the snapshot; nothing is deleted. -/
theorem sync_degraded_witness :
    sync_to_staging exSnap [exRowB] true = Except.ok
      { staging := upsertAll exSnap [exRowB] (dedupVideos [("a", exVideo)])
        inserted := (dedupVideos [("a", exVideo)]).length
        updated := 0
        deleted := 0
        degradedReport := true
        returned := (dedupVideos [("a", exVideo)]).length } :=
  sync_degraded exSnap [exRowB] [("a", exVideo)] rfl

theorem keyed_error (vs : List RawVideo) (h : ∃ v ∈ vs, v.video_id = none) :
    keyedVideos vs = Except.error SyncError.keyError := by
  induction vs with
  | nil =>
    obtain ⟨v, hv, _⟩ := h
    exact absurd hv (List.not_mem_nil v)
  | cons v tl ih =>
    simp only [keyedVideos]
    cases hvk : v.video_id with
    | none => rfl
    | some k =>
      obtain ⟨w, hw, hwn⟩ := h
      rcases List.mem_cons.mp hw with rfl | hw0
      · rw [hvk] at hwn
        exact absurd hwn (by simp)
      · rw [ih ⟨w, hw0, hwn⟩]

theorem keyed_ok : ∀ (vs : List RawVideo), (∀ v ∈ vs, v.video_id ≠ none) →
    ∃ ps, keyedVideos vs = Except.ok ps := by
  intro vs
  induction vs with
  | nil => exact fun _ => ⟨[], rfl⟩
  | cons v tl ih =>
    intro h
    obtain ⟨ps, hps⟩ := ih (fun w hw => h w (List.mem_cons_of_mem v hw))
    cases hvk : v.video_id with
    | none => exact absurd hvk (h v (List.mem_cons_self v tl))
    | some k =>
      refine ⟨(k, v) :: ps, ?_⟩
      simp only [keyedVideos]
      rw [hvk, hps]

/-- C4 counterexample: reconciling an empty snapshot does not fail and
does modify the staging store — the run succeeds and deletes the one
previously existing row. -/
theorem sync_empty_snapshot_cx :
    sync_to_staging (⟨[], "c", "h", "t"⟩ : Snapshot)
      [⟨"a", "T", "p", "PT1M", "1:00", 1, 2, 3, "c", "h", "t0"⟩] false
      = Except.ok ⟨[], 0, 0, 1, false, 0⟩ ∧
    ([⟨"a", "T", "p", "PT1M", "1:00", 1, 2, 3, "c", "h", "t0"⟩] : Staging) ≠ [] := by
  exact ⟨rfl, by decide⟩

/-- C4 amended: reconcile fails with the key error exactly when some
record lacks its video_id (raised before any staging access); a snapshot
whose records all carry keys always succeeds; and an empty snapshot does
not fail — the run succeeds, inserts and updates nothing, and deletes
every previously existing staging row. -/
theorem sync_failure_modes (snap : Snapshot) (st : Staging) (rf : Bool) :
    ((∃ v ∈ snap.videos, v.video_id = none) →
      sync_to_staging snap st rf = Except.error SyncError.keyError) ∧
    ((∀ v ∈ snap.videos, v.video_id ≠ none) →
      ∃ out, sync_to_staging snap st rf = Except.ok out) ∧
    (snap.videos = [] →
      sync_to_staging snap st false =
        Except.ok ⟨[], 0, 0, (stagingKeys st).dedup.length, false, 0⟩) := by
  refine ⟨?_, ?_, ?_⟩
  · intro h
    unfold sync_to_staging
    rw [keyed_error snap.videos h]
  · intro h
    obtain ⟨ps, hps⟩ := keyed_ok snap.videos h
    exact ⟨syncBody snap st rf ps, sync_ok snap st rf ps hps⟩
  · intro hv
    have hk : keyedVideos snap.videos = Except.ok [] := by
      rw [hv]
      rfl
    rw [sync_ok snap st false [] hk]
    refine congrArg Except.ok ?_
    unfold syncBody
    have ht : tombstones (existingIdsOf st false)
        ((dedupVideos []).map (fun p => p.1)) = (stagingKeys st).dedup := by
      show tombstones (stagingKeys st).dedup [] = _
      unfold tombstones
      exact List.filter_eq_self.mpr (fun a _ => by simp)
    have hst : deleteStaging (upsertAll snap st (dedupVideos []))
        ((stagingKeys st).dedup) = [] := by
      show deleteStaging st ((stagingKeys st).dedup) = []
      unfold deleteStaging
      by_cases hemp : ((stagingKeys st).dedup).isEmpty = true
      · rw [if_pos hemp]
        have h1 : (stagingKeys st).dedup = [] := by
          rwa [List.isEmpty_eq_true] at hemp
        have h2 : stagingKeys st = [] := (List.dedup_eq_nil _).mp h1
        unfold stagingKeys at h2
        exact List.map_eq_nil_iff.mp h2
      · rw [if_neg hemp]
        rw [List.filter_eq_nil_iff]
        intro r hr
        simp only [decide_eq_true_eq]
        intro hc
        exact hc (List.mem_dedup.mpr (List.mem_map.mpr ⟨r, hr, rfl⟩))
    rw [ht, hst]
    rfl

/-- Witness: the three failure-mode conclusions at concrete snapshots. -/
theorem sync_failure_modes_witness :
    sync_to_staging
        (⟨[⟨none, "T", "p", "d", "dr", none, none, none⟩], "c", "h", "t"⟩ : Snapshot)
        [] false
      = Except.error SyncError.keyError ∧
    (∃ out, sync_to_staging exSnap [] false = Except.ok out) ∧
    sync_to_staging (⟨[], "c", "h", "t"⟩ : Snapshot) [exRowB] false
      = Except.ok ⟨[], 0, 0, 1, false, 0⟩ :=
  ⟨(sync_failure_modes
      (⟨[⟨none, "T", "p", "d", "dr", none, none, none⟩], "c", "h", "t"⟩ : Snapshot)
      [] false).1
      ⟨⟨none, "T", "p", "d", "dr", none, none, none⟩, List.mem_cons_self _ _, rfl⟩,
   (sync_failure_modes exSnap [] false).2.1
      (by
        intro v hv
        rcases List.mem_cons.mp hv with rfl | hv0
        · exact fun hc => Option.noConfusion hc
        · exact absurd hv0 (List.not_mem_nil v)),
   (sync_failure_modes (⟨[], "c", "h", "t"⟩ : Snapshot) [exRowB] false).2.2 rfl⟩

/-! ## Core transformer claims -/

theorem core_delete_collapse (core1 : List CoreRow) (ks : List String) :
    (if (core1.filter (fun r => decide (r.video_id ∉ ks))).length > 0
      then core1.filter (fun r => decide (r.video_id ∈ ks)) else core1) =
    core1.filter (fun r => decide (r.video_id ∈ ks)) := by
  by_cases h : (core1.filter (fun r => decide (r.video_id ∉ ks))).length > 0
  · rw [if_pos h]
  · rw [if_neg h]
    have h0 : (core1.filter (fun r => decide (r.video_id ∉ ks))).length = 0 := by
      omega
    rw [List.length_eq_zero, List.filter_eq_nil_iff] at h0
    symm
    rw [List.filter_eq_self]
    intro r hr
    have hmem := h0 r hr
    simp only [decide_eq_true_eq] at hmem ⊢
    by_contra hc
    exact hmem hc

theorem transform_videos_eq (state : CoreState) (st : Staging) (now ts : String) :
    ((transform_to_core state st now ts).1).videos =
      (st.foldl (fun c r => upsertCore c (coreRowOfStaging now r)) state.videos).filter
        (fun r => decide (r.video_id ∈ stagingKeys st)) :=
  core_delete_collapse
    (st.foldl (fun c r => upsertCore c (coreRowOfStaging now r)) state.videos)
    (stagingKeys st)

/-- C3: after every transform run the core key set is a subset of the
current staging key set; equivalently, a video_id absent from staging is
absent from core. -/
theorem transform_core_subset (state : CoreState) (st : Staging) (now ts : String) :
    (∀ v, v ∈ ((transform_to_core state st now ts).1).videos.map
        (fun r => r.video_id) → v ∈ stagingKeys st) ∧
    (∀ v, v ∉ stagingKeys st →
      v ∉ ((transform_to_core state st now ts).1).videos.map
        (fun r => r.video_id)) := by
  have hmain : ∀ v, v ∈ ((transform_to_core state st now ts).1).videos.map
      (fun r => r.video_id) → v ∈ stagingKeys st := by
    intro v hv
    rw [transform_videos_eq] at hv
    obtain ⟨r, hr, rfl⟩ := List.mem_map.mp hv
    have hf := (List.mem_filter.mp hr).2
    simpa using hf
  exact ⟨hmain, fun v hv hmem => hv (hmain v hmem)⟩

/-- Witness: a key absent from staging is absent from core after the run. -/
theorem transform_core_subset_witness :
    "z" ∉ ((transform_to_core ⟨[], []⟩ [exRowA] "now" "t").1).videos.map
      (fun r => r.video_id) :=
  (transform_core_subset ⟨[], []⟩ [exRowA] "now" "t").2 "z" (by decide)

theorem count_key_filter (st : Staging) (v ts : String)
    (hnd : (stagingKeys st).Nodup) (hv : v ∈ stagingKeys st) :
    ((st.map (statRowOf ts)).filter (fun sr => sr.video_id == v)).length = 1 := by
  induction st with
  | nil => exact absurd hv (by simp [stagingKeys])
  | cons r tl ih =>
    unfold stagingKeys at hnd hv
    rw [List.map_cons, List.nodup_cons] at hnd
    rw [List.map_cons, List.mem_cons] at hv
    rw [List.map_cons]
    by_cases hr : r.video_id = v
    · have hpos : ((statRowOf ts r).video_id == v) = true := beq_iff_eq.mpr hr
      rw [List.filter_cons, if_pos hpos]
      have hnil : (tl.map (statRowOf ts)).filter (fun sr => sr.video_id == v) = [] := by
        rw [List.filter_eq_nil_iff]
        intro sr hsr
        obtain ⟨q, hq, rfl⟩ := List.mem_map.mp hsr
        intro hbeq
        have hqv : q.video_id = v := eq_of_beq hbeq
        exact hnd.1 (hr ▸ hqv ▸ List.mem_map.mpr ⟨q, hq, rfl⟩)
      rw [hnil]
      rfl
    · have hneg : ¬ ((statRowOf ts r).video_id == v) = true :=
        fun hbeq => hr (eq_of_beq hbeq)
      rw [List.filter_cons, if_neg hneg]
      refine ih hnd.2 ?_
      rcases hv with hv | hv
      · exact absurd hv.symm hr
      · exact hv

theorem transform_statistics_eq (state : CoreState) (st : Staging) (now ts : String) :
    ((transform_to_core state st now ts).1).statistics =
      state.statistics ++ st.map (statRowOf ts) := rfl

theorem runTransformN_stats_count (st : Staging) (now ts v : String)
    (hnd : (stagingKeys st).Nodup) (hv : v ∈ stagingKeys st) :
    ∀ (N : Nat) (state : CoreState),
      ((runTransformN N state st now ts).statistics.filter
        (fun sr => sr.video_id == v)).length =
      (state.statistics.filter (fun sr => sr.video_id == v)).length + N := by
  intro N
  induction N with
  | zero =>
    intro state
    rfl
  | succ m ih =>
    intro state
    show ((runTransformN m (transform_to_core state st now ts).1 st now ts).statistics.filter
      (fun sr => sr.video_id == v)).length = _
    rw [ih (transform_to_core state st now ts).1, transform_statistics_eq,
      List.filter_append, List.length_append, count_key_filter st v ts hnd hv]
    omega

/-- C2: every transform run appends exactly one statistics row per row
currently in staging, each with recorded_at equal to the run's reference
timestamp, leaving all previously appended rows untouched; hence after N
runs over an unchanged video set each staged video has gained N rows. -/
theorem transform_statistics_append (state : CoreState) (st : Staging) (now ts : String) :
    ((transform_to_core state st now ts).1).statistics =
      state.statistics ++ st.map (statRowOf ts) ∧
    (∀ sr ∈ st.map (statRowOf ts), sr.recorded_at = ts) ∧
    (∀ (N : Nat) (v : String), (stagingKeys st).Nodup → v ∈ stagingKeys st →
      ((runTransformN N state st now ts).statistics.filter
          (fun sr => sr.video_id == v)).length =
        (state.statistics.filter (fun sr => sr.video_id == v)).length + N) := by
  refine ⟨rfl, ?_, ?_⟩
  · intro sr hsr
    obtain ⟨r, _, rfl⟩ := List.mem_map.mp hsr
    rfl
  · intro N v hnd hv
    exact runTransformN_stats_count st now ts v hnd hv N state

/-- Witness: two transform runs over a fixed one-row staging table give
that video exactly two statistics rows. -/
theorem transform_statistics_append_witness :
    ((runTransformN 2 ⟨[], []⟩ [exRowA] "now" "t").statistics.filter
        (fun sr => sr.video_id == "a")).length =
      (([] : List StatRow).filter (fun sr => sr.video_id == "a")).length + 2 :=
  (transform_statistics_append ⟨[], []⟩ [exRowA] "now" "t").2.2 2 "a"
    (by decide) (by decide)

/-! ## Deduplication claims -/

theorem keyed_wf : ∀ (vs : List RawVideo) (ps : List (String × RawVideo)),
    keyedVideos vs = Except.ok ps → ∀ p ∈ ps, p.2.video_id = some p.1 := by
  intro vs
  induction vs with
  | nil =>
    intro ps h p hp
    simp only [keyedVideos] at h
    injection h with h
    subst h
    exact absurd hp (List.not_mem_nil p)
  | cons v tl ih =>
    intro ps h p hp
    simp only [keyedVideos] at h
    cases hvk : v.video_id with
    | none =>
      rw [hvk] at h
      exact Except.noConfusion h
    | some k =>
      rw [hvk] at h
      cases hres : keyedVideos tl with
      | error e =>
        rw [hres] at h
        exact Except.noConfusion h
      | ok ps0 =>
        rw [hres] at h
        injection h with h
        subst h
        rcases List.mem_cons.mp hp with rfl | hp0
        · exact hvk
        · exact ih ps0 hres p hp0

theorem dictInsert_wf (d : List (String × RawVideo)) (k : String) (v : RawVideo)
    (hd : ∀ p ∈ d, p.2.video_id = some p.1) (hv : v.video_id = some k) :
    ∀ p ∈ dictInsert d k v, p.2.video_id = some p.1 := by
  intro p hp
  unfold dictInsert at hp
  by_cases hany : d.any (fun q => q.1 == k) = true
  · rw [if_pos hany] at hp
    obtain ⟨q, hq, rfl⟩ := List.mem_map.mp hp
    unfold dictUpdate
    split
    · exact hv
    · exact hd q hq
  · rw [if_neg hany] at hp
    rcases List.mem_append.mp hp with hp0 | hp0
    · exact hd p hp0
    · rw [List.mem_singleton.mp hp0]
      exact hv

theorem dedup_wf (ps : List (String × RawVideo))
    (hps : ∀ p ∈ ps, p.2.video_id = some p.1) :
    ∀ p ∈ dedupVideos ps, p.2.video_id = some p.1 := by
  unfold dedupVideos
  suffices haux : ∀ (qs d : List (String × RawVideo)),
      (∀ p ∈ qs, p.2.video_id = some p.1) → (∀ p ∈ d, p.2.video_id = some p.1) →
      ∀ p ∈ qs.foldl (fun d p => dictInsert d p.1 p.2) d, p.2.video_id = some p.1 by
    exact haux ps [] hps (fun p hp => absurd hp (List.not_mem_nil p))
  intro qs
  induction qs with
  | nil => exact fun d _ hd p hp => hd p hp
  | cons q tl ih =>
    intro d hqs hd p hp
    rw [List.foldl_cons] at hp
    refine ih (dictInsert d q.1 q.2)
      (fun p0 hp0 => hqs p0 (List.mem_cons_of_mem q hp0)) ?_ p hp
    exact dictInsert_wf d q.1 q.2 hd (hqs q (List.mem_cons_self q tl))

theorem keys_dictInsert_nodup (d : List (String × RawVideo)) (k : String)
    (v : RawVideo) (hd : (d.map (fun p => p.1)).Nodup) :
    ((dictInsert d k v).map (fun p => p.1)).Nodup := by
  unfold dictInsert
  by_cases hany : d.any (fun q => q.1 == k) = true
  · rw [if_pos hany]
    have hkeys : (d.map (dictUpdate k v)).map (fun p => p.1) = d.map (fun p => p.1) := by
      rw [List.map_map]
      have hfun : ((fun p : String × RawVideo => p.1) ∘ dictUpdate k v) =
          fun p : String × RawVideo => p.1 := by
        funext p
        exact dictUpdate_key k v p
      rw [hfun]
    rw [hkeys]
    exact hd
  · rw [if_neg hany]
    rw [List.map_append]
    rw [List.nodup_append]
    refine ⟨hd, List.nodup_singleton k, ?_⟩
    intro a ha hak
    rw [List.mem_singleton.mp hak] at ha
    obtain ⟨p0, hp0, hkey⟩ := List.mem_map.mp ha
    have hfalse := List.any_eq_false.mp ((Bool.not_eq_true _).mp hany) p0 hp0
    exact hfalse (beq_iff_eq.mpr hkey)

theorem keys_dedup_nodup (ps : List (String × RawVideo)) :
    ((dedupVideos ps).map (fun p => p.1)).Nodup := by
  unfold dedupVideos
  suffices haux : ∀ (qs d : List (String × RawVideo)),
      (d.map (fun p => p.1)).Nodup →
      ((qs.foldl (fun d p => dictInsert d p.1 p.2) d).map (fun p => p.1)).Nodup by
    exact haux ps [] List.nodup_nil
  intro qs
  induction qs with
  | nil => exact fun d hd => hd
  | cons q tl ih =>
    intro d hd
    rw [List.foldl_cons]
    exact ih (dictInsert d q.1 q.2) (keys_dictInsert_nodup d q.1 q.2 hd)

theorem foldl_dictInsert_fresh : ∀ (qs d : List (String × RawVideo)),
    (qs.map (fun p => p.1)).Nodup → (∀ p ∈ qs, p.1 ∉ d.map (fun p0 => p0.1)) →
    qs.foldl (fun d p => dictInsert d p.1 p.2) d = d ++ qs := by
  intro qs
  induction qs with
  | nil =>
    intro d _ _
    simp
  | cons q tl ih =>
    intro d hnd hfresh
    rw [List.foldl_cons]
    have hq : q.1 ∉ d.map (fun p0 => p0.1) := hfresh q (List.mem_cons_self q tl)
    have hins : dictInsert d q.1 q.2 = d ++ [q] := by
      unfold dictInsert
      have hnoany : ¬ (d.any fun p => p.1 == q.1) = true := by
        intro hc
        obtain ⟨p0, hp0, hbeq⟩ := List.any_eq_true.mp hc
        exact hq (List.mem_map.mpr ⟨p0, hp0, eq_of_beq hbeq⟩)
      rw [if_neg hnoany]
    rw [hins]
    rw [List.map_cons, List.nodup_cons] at hnd
    rw [ih (d ++ [q]) hnd.2 ?_]
    · rw [List.append_assoc]
      rfl
    · intro p hp
      rw [List.map_append]
      intro hc
      rcases List.mem_append.mp hc with hc0 | hc0
      · exact hfresh p (List.mem_cons_of_mem q hp) hc0
      · have heq := List.mem_singleton.mp hc0
        exact hnd.1 (List.mem_map.mpr ⟨p, hp, heq⟩)

theorem dedup_idem (ps : List (String × RawVideo))
    (hnd : (ps.map (fun p => p.1)).Nodup) : dedupVideos ps = ps := by
  unfold dedupVideos
  rw [foldl_dictInsert_fresh ps [] hnd (fun p _ => by simp)]
  rfl

theorem keyedVideos_values (ps : List (String × RawVideo))
    (hps : ∀ p ∈ ps, p.2.video_id = some p.1) :
    keyedVideos (ps.map (fun p => p.2)) = Except.ok ps := by
  induction ps with
  | nil => rfl
  | cons p tl ih =>
    rw [List.map_cons]
    simp only [keyedVideos]
    rw [hps p (List.mem_cons_self p tl)]
    rw [ih (fun q hq => hps q (List.mem_cons_of_mem p hq))]

theorem dictLookup_dictInsert (d : List (String × RawVideo)) (k0 : String)
    (v : RawVideo) (k : String) :
    dictLookup (dictInsert d k0 v) k =
      if k = k0 then some v else dictLookup d k := by
  unfold dictInsert
  by_cases hany : (d.any fun p => p.1 == k0) = true
  · rw [if_pos hany]
    unfold dictLookup
    rw [find?_key_map (fun p => p.1) (dictUpdate k0 v) (dictUpdate_key k0 v) k d]
    by_cases hk : k = k0
    · rw [if_pos hk]
      subst hk
      obtain ⟨p0, hp0, hbeq⟩ := List.any_eq_true.mp hany
      have hsome : (d.find? (fun p => p.1 == k)).isSome = true :=
        List.find?_isSome.mpr ⟨p0, hp0, hbeq⟩
      obtain ⟨q, hq⟩ := Option.isSome_iff_exists.mp hsome
      rw [hq]
      have hb := List.find?_some hq
      have hq1 : q.1 = k := eq_of_beq hb
      show some (dictUpdate k v q).2 = some v
      unfold dictUpdate
      rw [if_pos hq1]
    · rw [if_neg hk]
      cases hfind : d.find? (fun p => p.1 == k) with
      | none => rfl
      | some q =>
        have hb := List.find?_some hfind
        have hq1 : q.1 = k := eq_of_beq hb
        show some (dictUpdate k0 v q).2 = some q.2
        unfold dictUpdate
        rw [if_neg (fun hc => hk ((hq1.symm.trans hc)))]
  · rw [if_neg hany]
    unfold dictLookup
    rw [List.find?_append]
    by_cases hk : k = k0
    · rw [if_pos hk]
      subst hk
      have hnone : d.find? (fun p => p.1 == k) = none := by
        rw [List.find?_eq_none]
        intro p hp
        exact List.any_eq_false.mp ((Bool.not_eq_true _).mp hany) p hp
      rw [hnone]
      simp [List.find?]
    · rw [if_neg hk]
      have hsing : List.find? (fun p => p.1 == k) [(k0, v)] = none := by
        rw [List.find?_eq_none]
        intro p hp hbeq
        rw [List.mem_singleton.mp hp] at hbeq
        exact hk (eq_of_beq hbeq).symm
      rw [hsing, Option.or_none]

theorem lastOcc_concat (ps : List (String × RawVideo)) (p : String × RawVideo)
    (k : String) :
    lastOcc (ps ++ [p]) k = if p.1 = k then some p.2 else lastOcc ps k := by
  unfold lastOcc
  rw [List.filter_append]
  by_cases hp : p.1 = k
  · rw [if_pos hp]
    have hone : List.filter (fun q => q.1 == k) [p] = [p] := by
      rw [List.filter_cons, if_pos (beq_iff_eq.mpr hp)]
      rfl
    rw [hone, List.getLast?_concat]
    rfl
  · rw [if_neg hp]
    have hzero : List.filter (fun q => q.1 == k) [p] = [] := by
      rw [List.filter_cons, if_neg (fun hc => hp (eq_of_beq hc))]
      rfl
    rw [hzero, List.append_nil]

theorem dedup_lookup_last (ps : List (String × RawVideo)) (k : String) :
    dictLookup (dedupVideos ps) k = lastOcc ps k := by
  induction ps using List.reverseRecOn with
  | nil => rfl
  | append_singleton ps p ih =>
    have hstep : dedupVideos (ps ++ [p]) = dictInsert (dedupVideos ps) p.1 p.2 := by
      unfold dedupVideos
      rw [List.foldl_append]
      rfl
    rw [hstep, dictLookup_dictInsert, lastOcc_concat]
    by_cases hk : k = p.1
    · rw [if_pos hk, if_pos hk.symm]
    · rw [if_neg hk, if_neg (fun hc => hk hc.symm), ih]

/-- C6: reconcile deduplicates by video_id keeping the last occurrence in
the sequence, and reconciling any snapshot gives the very same result as
reconciling the pre-deduplicated snapshot containing only each id's last
occurrence. -/
theorem dedup_last_wins (snap : Snapshot) (ps : List (String × RawVideo))
    (hk : keyedVideos snap.videos = Except.ok ps) (st : Staging) (rf : Bool) :
    (∀ k, dictLookup (dedupVideos ps) k = lastOcc ps k) ∧
    sync_to_staging
        (⟨(dedupVideos ps).map (fun p => p.2), snap.channel_id,
          snap.channel_handle, snap.extraction_date⟩ : Snapshot) st rf
      = sync_to_staging snap st rf := by
  constructor
  · exact fun k => dedup_lookup_last ps k
  · have hwf := keyed_wf snap.videos ps hk
    have hwf2 := dedup_wf ps hwf
    have hkv : keyedVideos ((dedupVideos ps).map (fun p => p.2)) =
        Except.ok (dedupVideos ps) :=
      keyedVideos_values (dedupVideos ps) hwf2
    rw [sync_ok (⟨(dedupVideos ps).map (fun p => p.2), snap.channel_id,
        snap.channel_handle, snap.extraction_date⟩ : Snapshot) st rf
        (dedupVideos ps) hkv,
      sync_ok snap st rf ps hk]
    refine congrArg Except.ok ?_
    unfold syncBody
    rw [dedup_idem (dedupVideos ps) (keys_dedup_nodup ps)]
    rfl

/-- Witness: the duplicate-bearing snapshot exSnapDup reconciles exactly
like its pre-deduplicated form, and lookup of the duplicated key a in the
deduplication dict gives the last occurrence. -/
theorem dedup_last_wins_witness :
    dictLookup (dedupVideos [("a", exVideoA1), ("b", exVideoB), ("a", exVideoA2)]) "a"
      = lastOcc [("a", exVideoA1), ("b", exVideoB), ("a", exVideoA2)] "a" ∧
    sync_to_staging
        (⟨(dedupVideos [("a", exVideoA1), ("b", exVideoB), ("a", exVideoA2)]).map
          (fun p => p.2), "c", "h", "t"⟩ : Snapshot) [] false
      = sync_to_staging exSnapDup [] false :=
  ⟨(dedup_last_wins exSnapDup [("a", exVideoA1), ("b", exVideoB), ("a", exVideoA2)]
      rfl [] false).1 "a",
   (dedup_last_wins exSnapDup [("a", exVideoA1), ("b", exVideoB), ("a", exVideoA2)]
      rfl [] false).2⟩
